import Mathlib

/-!
Verification development for the VHDL dependency scanner
(src/scripts/dep_parse.py): a shallow embedding of its directed-graph
model, file parsing, wildcard resolution, library pruning and makefile
rule emission, together with theorems settling the specification claims.

Identifiers are Lean strings; the regex-based text extraction is
embedded as a list of recognized source items (one item per regex
match, carrying the captured groups), since the literal pattern syntax
is declared out of scope by the specification.
-/

/-! ## String helpers (models of the Python string operations used) -/

/-- Model of Python `str.lower()` (ASCII case folding, as used on the
identifiers produced by the word-character regexes). -/
def lowerStr (s : String) : String := ⟨s.data.map Char.toLower⟩

/-- Count occurrences of a character, model of `str.count` for a
single-character argument. -/
def countChar (c : Char) : List Char → Nat
  | [] => 0
  | d :: ds => (if d == c then 1 else 0) + countChar c ds

/-- Membership test on a list of strings (Python `in` on a set). -/
def memStr (s : String) : List String → Bool
  | [] => false
  | t :: ts => s == t || memStr s ts

/-- Model of `set.add`: insert if absent, keeping first-insertion order
as the canonical iteration order of the Python set. -/
def insStr (s : String) (l : List String) : List String :=
  if memStr s l then l else l ++ [s]

/-- Model of `set.update`: add every element of the second list. -/
def unionStr (a b : List String) : List String :=
  b.foldl (fun acc s => insStr s acc) a

/-- Is the first list a leading segment of the second (exact chars)? -/
def leadData : List Char → List Char → Bool
  | [], _ => true
  | _ :: _, [] => false
  | c :: cs, d :: ds => c == d && leadData cs ds

/-- Does the second list occur contiguously inside the first? -/
def subData : List Char → List Char → Bool
  | h, n =>
    match h with
    | [] => leadData n []
    | _ :: t => leadData n h || subData t n

/-- Model of Python `s.startswith(pre)`. -/
def strStarts (s pre : String) : Bool := leadData pre.data s.data

/-- Model of Python `needle in hay` (substring containment). -/
def strContains (hay needle : String) : Bool := subData hay.data needle.data

/-- Character-wise model of `str.replace("*", "ANY")`. -/
def replaceStarData : List Char → List Char
  | [] => []
  | c :: cs => (if c == '*' then ['A', 'N', 'Y'] else [c]) ++ replaceStarData cs

/-- Model of `n.replace("*", "ANY")` on identifiers. -/
def replaceStar (s : String) : String := ⟨replaceStarData s.data⟩

/-- Case-insensitive character comparison (re.IGNORECASE). -/
def chEq (a b : Char) : Bool := a.toLower == b.toLower

/-- Does the pattern (a `*`-free-or-`*` identifier list where `*` stands
for the regex `.+` after `_is_refering_to`'s substitution, and every
other character is a literal thanks to the `\.` escaping) match some
leading part of the text?  Mirrors regex matching at one position. -/
def patMatchAt : List Char → List Char → Bool
  | [], _ => true
  | '*' :: _, [] => false
  | '*' :: ps, _ :: ts => patMatchAt ps ts || patMatchAt ('*' :: ps) ts
  | _ :: _, [] => false
  | c :: ps, d :: ts => chEq c d && patMatchAt ps ts

/-- Model of `re.search`: the pattern matches at some position. -/
def reSearch (p : List Char) : List Char → Bool
  | [] => patMatchAt p []
  | c :: ts => patMatchAt p (c :: ts) || reSearch p ts

/-! ## The hand-rolled directed graph (`_DiGraph`)

A node maps to its attribute dictionary, which here is at most the
`file` attribute, so attributes are an `Option String`.  The edge list
keeps duplicates and order, as the Python list does.  (The Python class
stores `nodes`/`edges` at class level; a single-instance run, as in the
script's `__main__`, behaves as modelled here.  The sharing defect
itself is modelled separately below for claim C9.) -/

structure DiGraph where
  nodes : List (String × Option String)
  edges : List (String × String)
  deriving DecidableEq

def emptyG : DiGraph := ⟨[], []⟩

/-- Association-list lookup, first match (a Python dict never holds a
key twice; `lookupN` is its `[]`/`get`). -/
def lookupN : List (String × Option String) → String → Option (Option String)
  | [], _ => none
  | (k, v) :: rest, key => if k = key then some v else lookupN rest key

/-- Dict assignment `nodes[k] = v`: overwrite in place or append. -/
def setN : List (String × Option String) → String → Option String → List (String × Option String)
  | [], key, v => [(key, v)]
  | (k, w) :: rest, key, v =>
    if k = key then (key, v) :: rest else (k, w) :: setN rest key v

/-- `add_node(node, **kwargs)`: `self.nodes[node] = kwargs`. -/
def addNode (g : DiGraph) (k : String) (v : Option String) : DiGraph :=
  { g with nodes := setN g.nodes k v }

/-- `remove_node(node)`: pop the node, drop every edge touching it. -/
def removeNode (g : DiGraph) (k : String) : DiGraph :=
  { nodes := g.nodes.filter (fun p => !(p.1 == k)),
    edges := g.edges.filter (fun e => !(e.1 == k) && !(e.2 == k)) }

/-- The `if not node in self.nodes: self.add_node(node)` step of
`add_edge` for one endpoint. -/
def ensureNode (g : DiGraph) (k : String) : DiGraph :=
  if (lookupN g.nodes k).isSome then g else addNode g k none

/-- `add_edge(node_from, node_to)`: ensure both endpoints, append. -/
def addEdge (g : DiGraph) (a b : String) : DiGraph :=
  let g1 := ensureNode g a
  let g2 := ensureNode g1 b
  { g2 with edges := g2.edges ++ [(a, b)] }

/-- `copy()`: returns (a copy of) the nodes mapping; only its keys are
used by the callers. -/
def copyKeys (g : DiGraph) : List String := g.nodes.map Prod.fst

/-- `out_edges(node)`. -/
def outEdges (g : DiGraph) (n : String) : List (String × String) :=
  g.edges.filter (fun e => e.1 == n)

/-! ## Extraction (`_parse_src_to_defines`, `_parse_src_to_uses`,
`_parse_src_to_defines_and_uses`)

One `SrcItem` per regex match, carrying the captured groups.  An empty
string in an `arch`/`library` position models an empty capture (the
regexes with an empty group), which is falsy in Python and replaced by
`"*"` through `or '*'`. -/

inductive SrcItem where
  | packageDef (name : String)
  | packageBodyDef (name : String)
  | entityDef (name : String)
  | archDef (name entity : String)
  | packageUse (library name : String)
  | entityUse (library name arch : String)
  | componentUse (name : String)
  | vunitDef (name entity arch : String)
  deriving DecidableEq

/-- `_parse_src_to_defines`: package and entity definitions. -/
def parseSrcToDefines (src : List SrcItem) (library : String) : List String :=
  src.foldl (fun acc item =>
    match item with
    | .packageDef n => insStr (library ++ "." ++ n) acc
    | .entityDef n => insStr (library ++ "." ++ n) acc
    | _ => acc) []

/-- `_parse_src_to_uses`: package use clauses, entity and component
instantiations; a falsy library capture becomes `*`, a falsy
architecture capture drops the third segment. -/
def parseSrcToUses (src : List SrcItem) : List String :=
  src.foldl (fun acc item =>
    match item with
    | .packageUse lib n => insStr (lib ++ "." ++ n) acc
    | .entityUse lib n arch =>
      insStr ((if lib == "" then "*" else lib) ++ "." ++ n ++
        (if arch == "" then "" else "." ++ arch)) acc
    | .componentUse n => insStr ("*." ++ n) acc
    | _ => acc) []

/-- One match step of `_parse_src_to_defines_and_uses`: package bodies,
architectures and PSL vunits define one unit and use another in the
same match. -/
def duStep (library : String) (du : List String × List String) (item : SrcItem) :
    List String × List String :=
  match item with
  | .packageBodyDef n =>
    (insStr (library ++ "." ++ n ++ ".body") du.1, insStr (library ++ "." ++ n) du.2)
  | .archDef n e =>
    (insStr (library ++ "." ++ e ++ "." ++ n) du.1, insStr (library ++ "." ++ e) du.2)
  | .vunitDef n e a =>
    (insStr (library ++ "." ++ e ++ "." ++ (if a == "" then "*" else a) ++ "." ++ n) du.1,
     insStr ("*." ++ e ++ "." ++ (if a == "" then "*" else a)) du.2)
  | _ => du

/-- `_parse_src_to_defines_and_uses`: fold all matches. -/
def parseSrcToDefinesAndUses (src : List SrcItem) (library : String) :
    List String × List String :=
  src.foldl (duStep library) ([], [])

/-- `_parse_file`: union of the plain and the combined extractions
(defines side). -/
def parseFileDefines (src : List SrcItem) (library : String) : List String :=
  unionStr (parseSrcToDefines src library) (parseSrcToDefinesAndUses src library).1

/-- `_parse_file`: union of the plain and the combined extractions
(uses side). -/
def parseFileUses (src : List SrcItem) (library : String) : List String :=
  unionStr (parseSrcToUses src) (parseSrcToDefinesAndUses src library).2

/-! ## `parse`: fold one file into the graph -/

/-- The inner `for use in uses` loop of `parse` for one provide `p`
(already lowercased): skip self-references, add the edges. -/
def addUseEdges (uses : List String) (p : String) (g : DiGraph) : DiGraph :=
  uses.foldl (fun gg use =>
    let u := lowerStr use
    if p = u then gg else addEdge gg p u) g

/-- One iteration of the `for provide in provides` loop of `parse`:
register the node with its file, add its use edges, and for a
first-level unit add the companion `.*` wildcard node. -/
def parseProvide (file : String) (uses : List String) (g : DiGraph) (provide : String) :
    DiGraph :=
  let p := lowerStr provide
  let g1 := addNode g p (some file)
  let g2 := addUseEdges uses p g1
  if countChar '.' p.data == 1 then addNode g2 (p ++ ".*") none else g2

/-- `parse(file, library)`: extract, then fold every provide. -/
def parse (g : DiGraph) (file library : String) (src : List SrcItem) : DiGraph :=
  let provides := parseFileDefines src library
  let uses := parseFileUses src library
  provides.foldl (parseProvide file uses) g

/-! ## `resolve` and `remove` -/

/-- `_is_refering_to(u, v)`: exactly one wildcard side, and the pattern
built from `u` (dots escaped, `*` replaced by `.+`) is found somewhere
in `v` by an unanchored, case-insensitive `re.search`. -/
def isReferingTo (u v : String) : Bool :=
  u.data.contains '*' && !(v.data.contains '*') && reSearch u.data v.data

/-- `resolve()`: for every ordered pair of node keys of the snapshot,
add the edge when `_is_refering_to` holds. -/
def resolve (g : DiGraph) : DiGraph :=
  let ks := copyKeys g
  ks.foldl (fun g1 u =>
    ks.foldl (fun g2 v =>
      if isReferingTo u v then addEdge g2 u v else g2) g1) g

/-- The `any([n.startswith(unit + ".") for unit in units])` test. -/
def libMatch (units : List String) (n : String) : Bool :=
  units.any (fun unit => strStarts n (unit ++ "."))

/-- `remove(units)`: drop every node of an assumed-available library,
iterating over a snapshot of the node keys. -/
def removeLibs (g : DiGraph) (units : List String) : DiGraph :=
  let ks := copyKeys g
  ks.foldl (fun g1 n => if libMatch units n then removeNode g1 n else g1) g

/-! ## `write_makefile_rules`

The printed output is modelled as a list of rule records (stdout) plus
a list of warning messages (stderr); the two streams are structurally
separate.  Path relativization (`file.relative_to(root)`) is abstracted
to the identity on the stored path, which keeps the only facts the
rules depend on: the object path determines the file, and it is never
the empty string. -/

inductive Rule where
  | du (designUnit : String) (objFile : String)
  | obj (objFile : String) (deps : List String)
  | objsVar (isTb : Bool) (objFile : String)
  deriving DecidableEq

/-- Object artifact path for a node with the given `file` attribute;
`""` (falsy) when the node has none. -/
def objFileOf : Option String → String
  | some f => "obj/" ++ f ++ ".o"
  | none => ""

/-- `nodes[k].get("file")`; the callers only reach keys present in the
mapping (for absent keys CPython would raise, which the well-formedness
hypotheses below rule out). -/
def fileAttrOf (g : DiGraph) (k : String) : Option String :=
  match lookupN g.nodes k with
  | some a => a
  | none => none

/-- `re.search(TESTBENCH_FILE_REGEX, obj_file, re.IGNORECASE)`: the
object path contains `_tb.` or `/tb_`, case-insensitively. -/
def isTbObj (obj : String) : Bool :=
  strContains (lowerStr obj) "_tb." || strContains (lowerStr obj) "/tb_"

/-- The stderr message for a referenced but undefined design unit. -/
def warningMsg (du : String) : String :=
  "Referenced design unit " ++ du ++ " is not defined in any file. Ignoring."

/-- The emission for one node: either a warning (undefined non-wildcard
unit) or a design-unit rule, followed, when a file is known, by the
object rule (same-file dependencies excluded) and the OBJS grouping. -/
def nodeRules (g : DiGraph) (n : String) (attrs : Option String) : List Rule × List String :=
  let du := replaceStar n
  let objFile := objFileOf attrs
  if !(strContains du "ANY") && objFile == "" then
    ([], [warningMsg du])
  else
    let tail :=
      if objFile == "" then []
      else
        [Rule.obj objFile
          (((outEdges g n).map Prod.snd).filterMap (fun d =>
            if attrs == fileAttrOf g d then none
            else some ("du/" ++ replaceStar d))),
         Rule.objsVar (isTbObj objFile) objFile]
    (Rule.du du objFile :: tail, [])

/-- Concatenate the per-node emissions in node order. -/
def rulesAcc (g : DiGraph) : List (String × Option String) → List Rule × List String
  | [] => ([], [])
  | (n, attrs) :: rest =>
    let r := nodeRules g n attrs
    let rs := rulesAcc g rest
    (r.1 ++ rs.1, r.2 ++ rs.2)

/-- `write_makefile_rules()`: loop over all nodes. -/
def writeMakefileRules (g : DiGraph) : List Rule × List String :=
  rulesAcc g g.nodes

/-! ## Class-level storage of `_DiGraph` (claim C9)

In the source, `nodes = {}` and `edges = []` are class attributes,
evaluated once at class creation.  `add_node`/`add_edge` mutate
`self.nodes`/`self.edges` in place; since `__init__` creates no
instance attribute of these names, the attribute lookups resolve to the
single class-level containers, shared by every instance.  The model
below tracks the class containers and, for completeness, the only
instance attribute the class ever creates (`self.edges = ...` inside
`remove_node`). -/

structure TwoInstances where
  classNodes : List (String × Option String)
  classEdges : List (String × String)
  inst1Edges : Option (List (String × String))
  inst2Edges : Option (List (String × String))
  deriving DecidableEq

/-- Constructing two fresh `_DiGraph()` instances: `__init__` assigns
no attribute, so both observe the class containers. -/
def freshTwo : TwoInstances := ⟨[], [], none, none⟩

/-- `g1.add_node(k, **kwargs)`: `self.nodes` resolves to the class
dictionary and the item assignment mutates it in place. -/
def addNodeVia1 (s : TwoInstances) (k : String) (v : Option String) : TwoInstances :=
  { s with classNodes := setN s.classNodes k v }

/-- The node mapping observed through the second instance: it has no
instance attribute `nodes`, so the lookup yields the class dictionary. -/
def nodesVia2 (s : TwoInstances) : List (String × Option String) :=
  s.classNodes

/-! ## Derived lists used by the characterization theorems -/

/-- Lifts a present-or-absent lookup result over an ensure step. -/
def ensureVal : Option (Option String) → Option (Option String)
  | none => some none
  | some v => some v

/-- The net effect of parsing one file on the attribute of one key:
defined keys get the file, companion wildcard keys get an empty
attribute dictionary, used keys are created when absent, everything
else is untouched. -/
def fileEffect (d c u : Prop) [Decidable d] [Decidable c] [Decidable u]
    (f : String) (x : Option (Option String)) : Option (Option String) :=
  if d then some (some f)
  else if c then some none
  else if u then ensureVal x
  else x

/-- Lowercased defines of a file. -/
def defsL (src : List SrcItem) (library : String) : List String :=
  (parseFileDefines src library).map lowerStr

/-- Companion wildcard keys created for the first-level defines. -/
def compsL (src : List SrcItem) (library : String) : List String :=
  ((defsL src library).filter (fun p => countChar '.' p.data == 1)).map (fun p => p ++ ".*")

/-- Lowercased uses of a file. -/
def usesL (src : List SrcItem) (library : String) : List String :=
  (parseFileUses src library).map lowerStr

/-- The edges contributed by one provide `p` (already lowercased). -/
def provideEdges (uses : List String) (p : String) : List (String × String) :=
  uses.filterMap (fun use =>
    let u := lowerStr use
    if p = u then none else some (p, u))

/-- All edges contributed by one file, in emission order. -/
def parseEdgesList (uses : List String) : List String → List (String × String)
  | [] => []
  | p :: ps => provideEdges uses (lowerStr p) ++ parseEdgesList uses ps

/-- The resolution edges from one wildcard source `u` into the key
snapshot. -/
def refTargets (ks : List String) (u : String) : List (String × String) :=
  (ks.filter (fun v => isReferingTo u v)).map (fun v => (u, v))

/-- All resolution edges, in emission order. -/
def refPairs (ks : List String) : List String → List (String × String)
  | [] => []
  | u :: us => refTargets ks u ++ refPairs ks us

/-! ## Well-formed graphs and concrete scenarios -/

/-- Graphs reachable through the parser API: keys are unique (a Python
dict) and every edge endpoint is a node (`add_edge` guarantees it). -/
def wfGraph (g : DiGraph) : Prop :=
  (g.nodes.map Prod.fst).Nodup ∧
  ∀ e ∈ g.edges, (lookupN g.nodes e.1).isSome = true ∧ (lookupN g.nodes e.2).isSome = true

/-- The wildcard-resolution scenario of the specification: entity
`work.counter`, two architectures, the companion wildcard node and a
use-side wildcard node `*.counter`. -/
def c1Graph : DiGraph :=
  addNode (addNode (addNode (addNode (addNode emptyG
    "work.counter" (some "rtl/counter.vhd"))
    "work.counter.rtl" (some "rtl/counter.vhd"))
    "work.counter.behav" (some "rtl/counter_behav.vhd"))
    "work.counter.*" none)
    "*.counter" none

/-- A file defining a single entity `foo`. -/
def c3Src : List SrcItem := [SrcItem.entityDef "foo"]

/-- Same-file scenario for C6: entity `adder` and architecture `rtl`
of `adder` defined in the one file `adder.vhd`. -/
def c6Graph : DiGraph :=
  parse emptyG "adder.vhd" "work" [SrcItem.entityDef "adder", SrcItem.archDef "rtl" "adder"]

/-! ## Basic lemmas about the helpers -/

theorem memStr_iff (s : String) (l : List String) : memStr s l = true ↔ s ∈ l := by
  induction l with
  | nil => simp [memStr]
  | cons t ts ih => simp [memStr, ih, beq_iff_eq]

theorem lookupN_setN (ns : List (String × Option String)) (k : String) (v : Option String)
    (k2 : String) :
    lookupN (setN ns k v) k2 = if k = k2 then some v else lookupN ns k2 := by
  induction ns with
  | nil => simp [setN, lookupN]
  | cons p rest ih =>
    obtain ⟨a, w⟩ := p
    by_cases hak : a = k
    · subst hak
      by_cases h2 : a = k2 <;> simp [setN, lookupN, h2]
    · by_cases h2 : a = k2
      · subst h2
        have hk2 : ¬ k = a := fun hh => hak hh.symm
        simp [setN, lookupN, hak, hk2]
      · simp [setN, lookupN, hak, h2, ih]

theorem lookupN_isSome_iff_mem_keys (ns : List (String × Option String)) (k : String) :
    (lookupN ns k).isSome = true ↔ k ∈ ns.map Prod.fst := by
  induction ns with
  | nil => simp [lookupN]
  | cons p rest ih =>
    obtain ⟨a, w⟩ := p
    by_cases h : a = k
    · subst h; simp [lookupN]
    · simp [lookupN, h, ih, Ne.symm h]

theorem lookupN_mem (ns : List (String × Option String)) (k : String) (v : Option String)
    (h : lookupN ns k = some v) : (k, v) ∈ ns := by
  induction ns with
  | nil => simp [lookupN] at h
  | cons p rest ih =>
    obtain ⟨a, w⟩ := p
    by_cases hk : a = k
    · subst hk
      simp [lookupN] at h
      simp [h]
    · simp [lookupN, hk] at h
      exact List.mem_cons_of_mem _ (ih h)

theorem nodup_mem_lookupN (ns : List (String × Option String)) (k : String) (v : Option String)
    (hnd : (ns.map Prod.fst).Nodup) (h : (k, v) ∈ ns) : lookupN ns k = some v := by
  induction ns with
  | nil => simp at h
  | cons p rest ih =>
    obtain ⟨a, w⟩ := p
    simp only [List.map_cons, List.nodup_cons] at hnd
    rcases List.mem_cons.mp h with h1 | h1
    · obtain ⟨h2, h3⟩ := Prod.mk.injEq .. ▸ h1
      cases h1
      simp [lookupN]
    · have hak : a ≠ k := by
        intro he
        subst he
        exact hnd.1 (List.mem_map.mpr ⟨(a, v), h1, rfl⟩)
      simp [lookupN, hak]
      exact ih hnd.2 h1

theorem lowerStr_append (a b : String) : lowerStr (a ++ b) = lowerStr a ++ lowerStr b := by
  apply String.ext
  simp [lowerStr, String.data_append]

theorem ne_self_append (s t : String) (h : t.data ≠ []) : s ≠ s ++ t := by
  intro he
  have hd : s.data = s.data ++ t.data := by
    conv_lhs => rw [he]
    exact String.data_append s t
  rw [List.self_eq_append_right] at hd
  exact h hd

theorem getLast?_append_pair (l : List Char) (a b : Char) :
    (l ++ [a, b]).getLast? = some b := by
  simp [List.getLast?_append]

theorem compsL_getLast (src : List SrcItem) (library : String) (k : String)
    (h : k ∈ compsL src library) : k.data.getLast? = some '*' := by
  simp only [compsL, List.mem_map] at h
  obtain ⟨p, _, hp⟩ := h
  subst hp
  have : (p ++ ".*").data = p.data ++ ['.', '*'] := String.data_append p ".*"
  rw [this]
  exact getLast?_append_pair _ _ _

theorem ensureVal_ensureVal (x : Option (Option String)) :
    ensureVal (ensureVal x) = ensureVal x := by
  cases x <;> rfl

theorem ensureVal_isSome (x : Option (Option String)) : (ensureVal x).isSome = true := by
  cases x <;> rfl

/-! ## Lemmas about the graph operations -/

theorem addNode_edges (g : DiGraph) (k : String) (v : Option String) :
    (addNode g k v).edges = g.edges := rfl

theorem addNode_lookup (g : DiGraph) (k : String) (v : Option String) (k2 : String) :
    lookupN (addNode g k v).nodes k2 = if k = k2 then some v else lookupN g.nodes k2 :=
  lookupN_setN g.nodes k v k2

theorem ensureNode_edges (g : DiGraph) (k : String) : (ensureNode g k).edges = g.edges := by
  unfold ensureNode
  split <;> rfl

theorem ensureNode_lookup (g : DiGraph) (k k2 : String) :
    lookupN (ensureNode g k).nodes k2 =
      if k = k2 then ensureVal (lookupN g.nodes k2) else lookupN g.nodes k2 := by
  unfold ensureNode
  by_cases h2 : k = k2
  · subst h2
    rcases hx : lookupN g.nodes k with _ | v <;> simp [hx, addNode_lookup, ensureVal]
  · rcases hx : lookupN g.nodes k with _ | v <;> simp [hx, addNode_lookup, h2]

theorem addEdge_edges (g : DiGraph) (a b : String) :
    (addEdge g a b).edges = g.edges ++ [(a, b)] := by
  unfold addEdge
  simp [ensureNode_edges]

theorem addEdge_lookup (g : DiGraph) (a b k : String) :
    lookupN (addEdge g a b).nodes k =
      if a = k ∨ b = k then ensureVal (lookupN g.nodes k) else lookupN g.nodes k := by
  unfold addEdge
  simp only [ensureNode_lookup]
  by_cases hb : b = k <;> by_cases ha : a = k <;>
    simp [ha, hb, ensureVal_ensureVal]

theorem addEdge_of_present (g : DiGraph) (a b : String)
    (ha : (lookupN g.nodes a).isSome = true) (hb : (lookupN g.nodes b).isSome = true) :
    addEdge g a b = { g with edges := g.edges ++ [(a, b)] } := by
  unfold addEdge ensureNode
  simp [ha, hb]

/-! ## Characterization of `addUseEdges` and `parseProvide` -/

theorem addUseEdges_edges (uses : List String) (p : String) (g : DiGraph) :
    (addUseEdges uses p g).edges = g.edges ++ provideEdges uses p := by
  induction uses generalizing g with
  | nil => simp [addUseEdges, provideEdges]
  | cons u us ih =>
    have hstep : addUseEdges (u :: us) p g =
        addUseEdges us p (if p = lowerStr u then g else addEdge g p (lowerStr u)) := rfl
    rw [hstep]
    by_cases h : p = lowerStr u
    · rw [if_pos h, ih]
      simp [provideEdges, List.filterMap_cons, h]
    · rw [if_neg h, ih, addEdge_edges]
      simp [provideEdges, List.filterMap_cons, h]

theorem addUseEdges_lookup (uses : List String) (p : String) (g : DiGraph) (k : String)
    (hp : (lookupN g.nodes p).isSome = true) :
    lookupN (addUseEdges uses p g).nodes k =
      if k ∈ uses.map lowerStr ∧ k ≠ p then ensureVal (lookupN g.nodes k)
      else lookupN g.nodes k := by
  induction uses generalizing g with
  | nil => simp [addUseEdges]
  | cons u us ih =>
    have hstep : addUseEdges (u :: us) p g =
        addUseEdges us p (if p = lowerStr u then g else addEdge g p (lowerStr u)) := rfl
    rw [hstep]
    by_cases h : p = lowerStr u
    · rw [if_pos h, ih g hp]
      have hiff : (k ∈ (u :: us).map lowerStr ∧ k ≠ p) ↔ (k ∈ us.map lowerStr ∧ k ≠ p) := by
        simp only [List.map_cons, List.mem_cons]
        constructor
        · rintro ⟨h1 | h1, h2⟩
          · exact absurd (h1.trans h.symm) h2
          · exact ⟨h1, h2⟩
        · rintro ⟨h1, h2⟩
          exact ⟨Or.inr h1, h2⟩
      exact if_congr hiff.symm rfl rfl
    · rw [if_neg h]
      have hp2 : (lookupN (addEdge g p (lowerStr u)).nodes p).isSome = true := by
        rw [addEdge_lookup]
        simp [ensureVal_isSome]
      rw [ih _ hp2, addEdge_lookup]
      obtain ⟨v, hv⟩ := Option.isSome_iff_exists.mp hp
      by_cases hk : k = p
      · subst hk
        simp [hv, ensureVal]
      · by_cases hu : k = lowerStr u
        · subst hu
          by_cases hm : lowerStr u ∈ us.map lowerStr
          · simp [hm, hk, ensureVal_ensureVal]
          · simp [hm, hk]
        · have hor2 : ¬ (p = k ∨ lowerStr u = k) := by
            rintro (h1 | h1)
            · exact hk h1.symm
            · exact hu h1.symm
          rw [if_neg hor2]
          have hucons : (k ∈ (u :: us).map lowerStr ∧ k ≠ p) ↔ (k ∈ us.map lowerStr ∧ k ≠ p) := by
            simp only [List.map_cons, List.mem_cons]
            constructor
            · rintro ⟨h1 | h1, h2⟩
              · exact absurd h1 hu
              · exact ⟨h1, h2⟩
            · rintro ⟨h1, h2⟩
              exact ⟨Or.inr h1, h2⟩
          exact if_congr hucons.symm rfl rfl

theorem parseProvide_edges (f : String) (uses : List String) (g : DiGraph) (pr : String) :
    (parseProvide f uses g pr).edges = g.edges ++ provideEdges uses (lowerStr pr) := by
  simp only [parseProvide]
  by_cases hc : (countChar '.' (lowerStr pr).data == 1) = true
  · rw [if_pos hc, addNode_edges, addUseEdges_edges, addNode_edges]
  · rw [if_neg hc, addUseEdges_edges, addNode_edges]

theorem parseProvide_lookup (f : String) (uses : List String) (g : DiGraph) (pr k : String) :
    lookupN (parseProvide f uses g pr).nodes k =
      if (countChar '.' (lowerStr pr).data == 1) = true ∧ k = lowerStr pr ++ ".*" then some none
      else if k = lowerStr pr then some (some f)
      else if k ∈ uses.map lowerStr then ensureVal (lookupN g.nodes k)
      else lookupN g.nodes k := by
  have hp1 : (lookupN (addNode g (lowerStr pr) (some f)).nodes (lowerStr pr)).isSome = true := by
    rw [addNode_lookup]
    simp
  have hmain : ∀ k2,
      lookupN (addUseEdges uses (lowerStr pr) (addNode g (lowerStr pr) (some f))).nodes k2 =
        if k2 = lowerStr pr then some (some f)
        else if k2 ∈ uses.map lowerStr then ensureVal (lookupN g.nodes k2)
        else lookupN g.nodes k2 := by
    intro k2
    rw [addUseEdges_lookup _ _ _ _ hp1]
    by_cases hk2 : k2 = lowerStr pr
    · simp [hk2, addNode_lookup]
    · by_cases hm : k2 ∈ uses.map lowerStr
      · simp [hm, hk2, addNode_lookup, Ne.symm hk2]
      · simp [hm, hk2, addNode_lookup, Ne.symm hk2]
  simp only [parseProvide]
  by_cases hc : (countChar '.' (lowerStr pr).data == 1) = true
  · rw [if_pos hc, addNode_lookup]
    by_cases hk1 : k = lowerStr pr ++ ".*"
    · rw [if_pos hk1.symm, if_pos ⟨hc, hk1⟩]
    · rw [if_neg (fun hh => hk1 hh.symm), hmain k,
        if_neg (show ¬((countChar '.' (lowerStr pr).data == 1) = true ∧
          k = lowerStr pr ++ ".*") from fun hh => hk1 hh.2)]
  · rw [if_neg hc, hmain k,
      if_neg (show ¬((countChar '.' (lowerStr pr).data == 1) = true ∧
        k = lowerStr pr ++ ".*") from fun hh => hc hh.1)]

theorem foldProvides_edges (f : String) (uses : List String) (ps : List String) (g : DiGraph) :
    (ps.foldl (parseProvide f uses) g).edges = g.edges ++ parseEdgesList uses ps := by
  induction ps generalizing g with
  | nil => simp [parseEdgesList]
  | cons p rest ih =>
    rw [List.foldl_cons, ih, parseProvide_edges]
    simp [parseEdgesList, List.append_assoc]

theorem mem_comps_getLast (l : List String) (k : String)
    (h : k ∈ (l.filter (fun q => countChar '.' q.data == 1)).map (fun q => q ++ ".*")) :
    k.data.getLast? = some '*' := by
  simp only [List.mem_map] at h
  obtain ⟨q, _, hq⟩ := h
  subst hq
  rw [String.data_append]
  exact getLast?_append_pair _ _ _

theorem fileEffect_d {d c u : Prop} [Decidable d] [Decidable c] [Decidable u]
    (hd : d) (f : String) (x : Option (Option String)) :
    fileEffect d c u f x = some (some f) := by
  simp [fileEffect, hd]

theorem fileEffect_c {d c u : Prop} [Decidable d] [Decidable c] [Decidable u]
    (hd : ¬d) (hc : c) (f : String) (x : Option (Option String)) :
    fileEffect d c u f x = some none := by
  simp [fileEffect, hd, hc]

theorem fileEffect_u {d c u : Prop} [Decidable d] [Decidable c] [Decidable u]
    (hd : ¬d) (hc : ¬c) (hu : u) (f : String) (x : Option (Option String)) :
    fileEffect d c u f x = ensureVal x := by
  simp [fileEffect, hd, hc, hu]

theorem fileEffect_id {d c u : Prop} [Decidable d] [Decidable c] [Decidable u]
    (hd : ¬d) (hc : ¬c) (hu : ¬u) (f : String) (x : Option (Option String)) :
    fileEffect d c u f x = x := by
  simp [fileEffect, hd, hc, hu]

theorem fileEffect_some {d c u : Prop} [Decidable d] [Decidable c] [Decidable u]
    (hd : ¬d) (hc : ¬c) (f : String) (v : Option String) :
    fileEffect d c u f (some v) = some v := by
  by_cases hu : u
  · rw [fileEffect_u hd hc hu]
    rfl
  · rw [fileEffect_id hd hc hu]

theorem fileEffect_ensure {d c u : Prop} [Decidable d] [Decidable c] [Decidable u]
    (hd : ¬d) (hc : ¬c) (f : String) (x : Option (Option String)) :
    fileEffect d c u f (ensureVal x) = ensureVal x := by
  by_cases hu : u
  · rw [fileEffect_u hd hc hu, ensureVal_ensureVal]
  · rw [fileEffect_id hd hc hu]

theorem foldProvides_lookup (f : String) (uses : List String) (ps : List String) (g : DiGraph)
    (k : String) :
    (∀ q ∈ ps, (lowerStr q).data.getLast? ≠ some '*') →
    lookupN (ps.foldl (parseProvide f uses) g).nodes k =
      fileEffect (k ∈ ps.map lowerStr)
        (k ∈ ((ps.map lowerStr).filter (fun q => countChar '.' q.data == 1)).map
          (fun q => q ++ ".*"))
        (ps ≠ [] ∧ k ∈ uses.map lowerStr) f (lookupN g.nodes k) := by
  induction ps generalizing g with
  | nil =>
    intro _
    simp [fileEffect]
  | cons p rest ih =>
    intro hstar
    have hstarP : (lowerStr p).data.getLast? ≠ some '*' := hstar p (List.mem_cons_self p rest)
    have hstarR : ∀ q ∈ rest, (lowerStr q).data.getLast? ≠ some '*' :=
      fun q hq => hstar q (List.mem_cons_of_mem p hq)
    have hpne : lowerStr p ≠ lowerStr p ++ ".*" := ne_self_append _ _ (by decide)
    rw [List.foldl_cons, ih _ hstarR, parseProvide_lookup]
    by_cases hdR : k ∈ rest.map lowerStr
    · have hD : k ∈ (p :: rest).map lowerStr := by
        simp only [List.map_cons]
        exact List.mem_cons_of_mem _ hdR
      rw [fileEffect_d hdR, fileEffect_d hD]
    · by_cases hkP : k = lowerStr p
      · have hcR : ¬ k ∈ ((rest.map lowerStr).filter
            (fun q => countChar '.' q.data == 1)).map (fun q => q ++ ".*") := by
          intro hmem
          apply hstarP
          rw [← hkP]
          exact mem_comps_getLast _ _ hmem
        have hD : k ∈ (p :: rest).map lowerStr := by
          simp only [List.map_cons]
          exact hkP ▸ List.mem_cons_self _ _
        have hinner1 : ¬ ((countChar '.' (lowerStr p).data == 1) = true ∧
            k = lowerStr p ++ ".*") := fun hh => hpne (hkP.symm.trans hh.2)
        rw [if_neg hinner1, if_pos hkP, fileEffect_some hdR hcR, fileEffect_d hD]
      · have hDne : ¬ k ∈ (p :: rest).map lowerStr := by
          simp only [List.map_cons, List.mem_cons]
          rintro (h1 | h1)
          · exact hkP h1
          · exact hdR h1
        by_cases hcR : k ∈ ((rest.map lowerStr).filter
            (fun q => countChar '.' q.data == 1)).map (fun q => q ++ ".*")
        · have hC : k ∈ (((p :: rest).map lowerStr).filter
              (fun q => countChar '.' q.data == 1)).map (fun q => q ++ ".*") := by
            simp only [List.map_cons, List.filter_cons]
            by_cases hcP : (countChar '.' (lowerStr p).data == 1) = true
            · rw [if_pos hcP, List.map_cons]
              exact List.mem_cons_of_mem _ hcR
            · rw [if_neg hcP]
              exact hcR
          rw [fileEffect_c hdR hcR, fileEffect_c hDne hC]
        · by_cases hk4 : (countChar '.' (lowerStr p).data == 1) = true ∧
              k = lowerStr p ++ ".*"
          · have hC : k ∈ (((p :: rest).map lowerStr).filter
                (fun q => countChar '.' q.data == 1)).map (fun q => q ++ ".*") := by
              simp only [List.map_cons, List.filter_cons, if_pos hk4.1, List.map_cons]
              exact hk4.2 ▸ List.mem_cons_self _ _
            rw [if_pos hk4, fileEffect_some hdR hcR, fileEffect_c hDne hC]
          · have hCne : ¬ k ∈ (((p :: rest).map lowerStr).filter
                (fun q => countChar '.' q.data == 1)).map (fun q => q ++ ".*") := by
              simp only [List.map_cons, List.filter_cons]
              by_cases hcP : (countChar '.' (lowerStr p).data == 1) = true
              · rw [if_pos hcP, List.map_cons]
                intro hmem
                rcases List.mem_cons.mp hmem with h1 | h1
                · exact hk4 ⟨hcP, h1⟩
                · exact hcR h1
              · rw [if_neg hcP]
                exact hcR
            rw [if_neg hk4, if_neg hkP]
            by_cases huM : k ∈ uses.map lowerStr
            · rw [if_pos huM, fileEffect_ensure hdR hcR,
                fileEffect_u hDne hCne ⟨List.cons_ne_nil p rest, huM⟩]
            · have hu1 : ¬ (rest ≠ [] ∧ k ∈ uses.map lowerStr) := fun hh => huM hh.2
              have hu2 : ¬ (p :: rest ≠ [] ∧ k ∈ uses.map lowerStr) := fun hh => huM hh.2
              rw [if_neg huM, fileEffect_id hdR hcR hu1, fileEffect_id hDne hCne hu2]

theorem parse_edges (g : DiGraph) (f l : String) (s : List SrcItem) :
    (parse g f l s).edges =
      g.edges ++ parseEdgesList (parseFileUses s l) (parseFileDefines s l) := by
  simp only [parse]
  exact foldProvides_edges f (parseFileUses s l) (parseFileDefines s l) g

theorem parse_lookup (g : DiGraph) (f l : String) (s : List SrcItem) (k : String)
    (hstar : ∀ d ∈ defsL s l, d.data.getLast? ≠ some '*') :
    lookupN (parse g f l s).nodes k =
      fileEffect (k ∈ defsL s l) (k ∈ compsL s l)
        (parseFileDefines s l ≠ [] ∧ k ∈ usesL s l) f (lookupN g.nodes k) := by
  simp only [parse, defsL, compsL, usesL] at hstar ⊢
  apply foldProvides_lookup
  intro q hq
  exact hstar (lowerStr q) (List.mem_map.mpr ⟨q, hq, rfl⟩)

/-! ## Characterization of `resolve` -/

theorem resolveInner (u : String) (vs : List String) (g : DiGraph)
    (hu : (lookupN g.nodes u).isSome = true)
    (hvs : ∀ v ∈ vs, (lookupN g.nodes v).isSome = true) :
    vs.foldl (fun g2 v => if isReferingTo u v then addEdge g2 u v else g2) g =
      { g with edges := g.edges ++ refTargets vs u } := by
  induction vs generalizing g with
  | nil => simp [refTargets]
  | cons v vs' ih =>
    rw [List.foldl_cons]
    by_cases h : isReferingTo u v = true
    · rw [if_pos h, addEdge_of_present g u v hu (hvs v (List.mem_cons_self v vs'))]
      rw [ih { g with edges := g.edges ++ [(u, v)] } hu
        (fun w hw => hvs w (List.mem_cons_of_mem v hw))]
      simp [refTargets, List.filter_cons, h, List.append_assoc]
    · rw [if_neg h, ih g hu (fun w hw => hvs w (List.mem_cons_of_mem v hw))]
      simp [refTargets, List.filter_cons, h]

theorem resolveOuter (ks us : List String) (g : DiGraph)
    (hks : ∀ v ∈ ks, (lookupN g.nodes v).isSome = true)
    (hus : ∀ u ∈ us, (lookupN g.nodes u).isSome = true) :
    us.foldl (fun g1 u =>
      ks.foldl (fun g2 v => if isReferingTo u v then addEdge g2 u v else g2) g1) g =
      { g with edges := g.edges ++ refPairs ks us } := by
  induction us generalizing g with
  | nil => simp [refPairs]
  | cons u us' ih =>
    rw [List.foldl_cons, resolveInner u ks g (hus u (List.mem_cons_self u us')) hks]
    rw [ih { g with edges := g.edges ++ refTargets ks u }
      (fun v hv => hks v hv) (fun w hw => hus w (List.mem_cons_of_mem u hw))]
    simp [refPairs, List.append_assoc]

theorem resolve_eq (g : DiGraph) :
    resolve g = { g with edges := g.edges ++ refPairs (copyKeys g) (copyKeys g) } := by
  have hpres : ∀ v ∈ copyKeys g, (lookupN g.nodes v).isSome = true := by
    intro v hv
    exact (lookupN_isSome_iff_mem_keys g.nodes v).mpr hv
  exact resolveOuter (copyKeys g) (copyKeys g) g hpres hpres

theorem resolve_nodes (g : DiGraph) : (resolve g).nodes = g.nodes := by
  rw [resolve_eq]

theorem resolve_edges (g : DiGraph) :
    (resolve g).edges = g.edges ++ refPairs (copyKeys g) (copyKeys g) := by
  rw [resolve_eq]

/-! ## Characterization of `removeLibs` -/

theorem removeFold (units : List String) (ks : List String) (g : DiGraph) :
    (ks.foldl (fun g1 n => if libMatch units n then removeNode g1 n else g1) g) =
      { nodes := g.nodes.filter (fun p => !(memStr p.1 ks && libMatch units p.1)),
        edges := g.edges.filter (fun e =>
          !(memStr e.1 ks && libMatch units e.1) &&
          !(memStr e.2 ks && libMatch units e.2)) } := by
  induction ks generalizing g with
  | nil => simp [memStr]
  | cons n ks' ih =>
    rw [List.foldl_cons]
    by_cases hm : libMatch units n = true
    · rw [if_pos hm, ih]
      have hpoint : ∀ a : String,
          (!(memStr a ks' && libMatch units a) && !(a == n)) =
            !(memStr a (n :: ks') && libMatch units a) := by
        intro a
        by_cases han : a = n
        · have hba : (a == n) = true := beq_iff_eq.mpr han
          have hma : libMatch units a = true := han ▸ hm
          simp [memStr, hba, hma]
        · have hba : (a == n) = false := beq_eq_false_iff_ne.mpr han
          simp [memStr, hba]
      have hedge : ∀ e : String × String,
          ((!(memStr e.1 ks' && libMatch units e.1) &&
            !(memStr e.2 ks' && libMatch units e.2)) &&
            (!(e.1 == n) && !(e.2 == n))) =
            (!(memStr e.1 (n :: ks') && libMatch units e.1) &&
             !(memStr e.2 (n :: ks') && libMatch units e.2)) := by
        intro e
        rw [← hpoint e.1, ← hpoint e.2]
        cases memStr e.1 ks' && libMatch units e.1 <;>
          cases memStr e.2 ks' && libMatch units e.2 <;>
          cases e.1 == n <;> cases e.2 == n <;> rfl
      simp only [removeNode, List.filter_filter]
      rw [List.filter_congr (fun (p : String × Option String) _ => hpoint p.1),
        List.filter_congr (fun (e : String × String) _ => hedge e)]
    · rw [if_neg hm, ih]
      have hmf : libMatch units n = false := by
        cases hb : libMatch units n
        · rfl
        · exact absurd hb hm
      have hpoint : ∀ a : String,
          (!(memStr a ks' && libMatch units a)) =
            !(memStr a (n :: ks') && libMatch units a) := by
        intro a
        by_cases han : a = n
        · have hba : (a == n) = true := beq_iff_eq.mpr han
          have hma : libMatch units a = false := han ▸ hmf
          simp [memStr, hba, hma]
        · have hba : (a == n) = false := beq_eq_false_iff_ne.mpr han
          simp [memStr, hba]
      have hedge : ∀ e : String × String,
          (!(memStr e.1 ks' && libMatch units e.1) &&
           !(memStr e.2 ks' && libMatch units e.2)) =
            (!(memStr e.1 (n :: ks') && libMatch units e.1) &&
             !(memStr e.2 (n :: ks') && libMatch units e.2)) := by
        intro e
        rw [hpoint e.1, hpoint e.2]
      rw [List.filter_congr (fun (p : String × Option String) _ => hpoint p.1),
        List.filter_congr (fun (e : String × String) _ => hedge e)]

theorem removeLibs_eq (g : DiGraph) (units : List String) :
    removeLibs g units =
      { nodes := g.nodes.filter (fun p => !(memStr p.1 (copyKeys g) && libMatch units p.1)),
        edges := g.edges.filter (fun e =>
          !(memStr e.1 (copyKeys g) && libMatch units e.1) &&
          !(memStr e.2 (copyKeys g) && libMatch units e.2)) } :=
  removeFold units (copyKeys g) g

/-! ## Membership lemmas for the extraction folds -/

theorem mem_insStr_self (s : String) (l : List String) : s ∈ insStr s l := by
  unfold insStr
  by_cases h : memStr s l = true
  · rw [if_pos h]
    exact (memStr_iff s l).mp h
  · rw [if_neg h]
    exact List.mem_append.mpr (Or.inr (List.mem_cons_self s []))

theorem mem_insStr_of (x s : String) (l : List String) (h : x ∈ l) : x ∈ insStr s l := by
  unfold insStr
  split
  · exact h
  · exact List.mem_append.mpr (Or.inl h)

theorem foldInsStr_mono (b : List String) (acc : List String) (x : String) (h : x ∈ acc) :
    x ∈ b.foldl (fun acc2 s => insStr s acc2) acc := by
  induction b generalizing acc with
  | nil => exact h
  | cons t ts ih => exact ih _ (mem_insStr_of _ _ _ h)

theorem mem_unionStr_right (a b : List String) (x : String) (h : x ∈ b) : x ∈ unionStr a b := by
  unfold unionStr
  induction b generalizing a with
  | nil => simp at h
  | cons t ts ih =>
    rw [List.foldl_cons]
    rcases List.mem_cons.mp h with h1 | h1
    · subst h1
      exact foldInsStr_mono ts _ x (mem_insStr_self x a)
    · exact ih _ h1

theorem duFold_mem1 (library : String) (src : List SrcItem) (du : List String × List String)
    (x : String) (h : x ∈ du.1) : x ∈ (src.foldl (duStep library) du).1 := by
  induction src generalizing du with
  | nil => exact h
  | cons item rest ih =>
    rw [List.foldl_cons]
    apply ih
    cases item <;> simp only [duStep] <;>
      first
        | exact h
        | exact mem_insStr_of _ _ _ h

theorem duFold_mem2 (library : String) (src : List SrcItem) (du : List String × List String)
    (x : String) (h : x ∈ du.2) : x ∈ (src.foldl (duStep library) du).2 := by
  induction src generalizing du with
  | nil => exact h
  | cons item rest ih =>
    rw [List.foldl_cons]
    apply ih
    cases item <;> simp only [duStep] <;>
      first
        | exact h
        | exact mem_insStr_of _ _ _ h

theorem duFold_body (library : String) (src : List SrcItem) (nm : String)
    (h : SrcItem.packageBodyDef nm ∈ src) (du : List String × List String) :
    (library ++ "." ++ nm ++ ".body") ∈ (src.foldl (duStep library) du).1 ∧
    (library ++ "." ++ nm) ∈ (src.foldl (duStep library) du).2 := by
  induction src generalizing du with
  | nil => simp at h
  | cons item rest ih =>
    rw [List.foldl_cons]
    rcases List.mem_cons.mp h with h1 | h1
    · cases h1
      constructor
      · apply duFold_mem1
        simp only [duStep]
        exact mem_insStr_self _ _
      · apply duFold_mem2
        simp only [duStep]
        exact mem_insStr_self _ _
    · exact ih h1 _

theorem duFold_arch (library : String) (src : List SrcItem) (a e : String)
    (h : SrcItem.archDef a e ∈ src) (du : List String × List String) :
    (library ++ "." ++ e ++ "." ++ a) ∈ (src.foldl (duStep library) du).1 ∧
    (library ++ "." ++ e) ∈ (src.foldl (duStep library) du).2 := by
  induction src generalizing du with
  | nil => simp at h
  | cons item rest ih =>
    rw [List.foldl_cons]
    rcases List.mem_cons.mp h with h1 | h1
    · cases h1
      constructor
      · apply duFold_mem1
        simp only [duStep]
        exact mem_insStr_self _ _
      · apply duFold_mem2
        simp only [duStep]
        exact mem_insStr_self _ _
    · exact ih h1 _

theorem body_mem_extraction (s : List SrcItem) (l nm : String)
    (h : SrcItem.packageBodyDef nm ∈ s) :
    (l ++ "." ++ nm ++ ".body") ∈ parseFileDefines s l ∧
    (l ++ "." ++ nm) ∈ parseFileUses s l :=
  ⟨mem_unionStr_right _ _ _ (duFold_body l s nm h ([], [])).1,
   mem_unionStr_right _ _ _ (duFold_body l s nm h ([], [])).2⟩

theorem arch_mem_extraction (s : List SrcItem) (l a e : String)
    (h : SrcItem.archDef a e ∈ s) :
    (l ++ "." ++ e ++ "." ++ a) ∈ parseFileDefines s l ∧
    (l ++ "." ++ e) ∈ parseFileUses s l :=
  ⟨mem_unionStr_right _ _ _ (duFold_arch l s a e h ([], [])).1,
   mem_unionStr_right _ _ _ (duFold_arch l s a e h ([], [])).2⟩

/-! ## Membership in the contributed edge lists -/

theorem mem_provideEdges (uses : List String) (p u : String) (hu : u ∈ uses)
    (hne : p ≠ lowerStr u) : (p, lowerStr u) ∈ provideEdges uses p := by
  unfold provideEdges
  exact List.mem_filterMap.mpr ⟨u, hu, by simp [hne]⟩

theorem mem_parseEdgesList (uses ps : List String) (p u : String)
    (hp : p ∈ ps) (hu : u ∈ uses) (hne : lowerStr p ≠ lowerStr u) :
    (lowerStr p, lowerStr u) ∈ parseEdgesList uses ps := by
  induction ps with
  | nil => simp at hp
  | cons q qs ih =>
    rcases List.mem_cons.mp hp with h1 | h1
    · subst h1
      exact List.mem_append.mpr (Or.inl (mem_provideEdges uses (lowerStr p) u hu hne))
    · exact List.mem_append.mpr (Or.inr (ih h1))

theorem parseEdgesList_ne (uses ps : List String) (e : String × String)
    (h : e ∈ parseEdgesList uses ps) : e.1 ≠ e.2 := by
  induction ps with
  | nil => simp [parseEdgesList] at h
  | cons q qs ih =>
    rcases List.mem_append.mp h with h1 | h1
    · unfold provideEdges at h1
      obtain ⟨u, _, hf⟩ := List.mem_filterMap.mp h1
      by_cases hne : lowerStr q = lowerStr u
      · simp [hne] at hf
      · simp only [if_neg hne] at hf
        obtain ⟨h2, h3⟩ := Prod.mk.injEq .. ▸ Option.some.injEq .. ▸ hf
        rw [← h2, ← h3]
        exact hne
    · exact ih h1

theorem isReferingTo_ne (u v : String) (h : isReferingTo u v = true) : u ≠ v := by
  intro he
  subst he
  unfold isReferingTo at h
  simp only [Bool.and_eq_true] at h
  have h1 := h.1.1
  have h2 := h.1.2
  rw [h1] at h2
  simp at h2

theorem refTargets_ne (ks : List String) (u : String) (e : String × String)
    (h : e ∈ refTargets ks u) : e.1 ≠ e.2 := by
  unfold refTargets at h
  obtain ⟨v, hv, he⟩ := List.mem_map.mp h
  have hr := (List.mem_filter.mp hv).2
  rw [← he]
  exact isReferingTo_ne u v hr

theorem refPairs_ne (ks us : List String) (e : String × String)
    (h : e ∈ refPairs ks us) : e.1 ≠ e.2 := by
  induction us with
  | nil => simp [refPairs] at h
  | cons u us' ih =>
    rcases List.mem_append.mp h with h1 | h1
    · exact refTargets_ne ks u e h1
    · exact ih h1

/-! ## Lemmas about the rule emission -/

theorem objFileOf_some_ne (f : String) : objFileOf (some f) ≠ "" := by
  intro h
  have hd : (("obj/" ++ f) ++ ".o").data = ("" : String).data := by
    rw [show ("obj/" ++ f) ++ ".o" = objFileOf (some f) from rfl, h]
  rw [String.data_append] at hd
  rcases List.append_eq_nil.mp hd with ⟨_, h2⟩
  exact absurd h2 (by decide)

theorem objFileOf_some_beq (f : String) : (objFileOf (some f) == "") = false :=
  beq_eq_false_iff_ne.mpr (objFileOf_some_ne f)

theorem nodeRules_warning (g : DiGraph) (n : String)
    (hstar : strContains (replaceStar n) "ANY" = false) :
    nodeRules g n none = ([], [warningMsg (replaceStar n)]) := by
  simp only [nodeRules, objFileOf]
  rw [if_pos]
  simp [hstar]

theorem nodeRules_obj (g : DiGraph) (n f : String) :
    (nodeRules g n (some f)).1 =
      [Rule.du (replaceStar n) (objFileOf (some f)),
       Rule.obj (objFileOf (some f)) (((outEdges g n).map Prod.snd).filterMap (fun d =>
         if (some f : Option String) == fileAttrOf g d then none
         else some ("du/" ++ replaceStar d))),
       Rule.objsVar (isTbObj (objFileOf (some f))) (objFileOf (some f))] := by
  simp only [nodeRules, objFileOf_some_beq, Bool.and_false, if_neg]
  simp

theorem nodeRules_du_mem (g : DiGraph) (n : String) (a : Option String)
    (hcond : ¬ ((!(strContains (replaceStar n) "ANY") && (objFileOf a == "")) = true)) :
    Rule.du (replaceStar n) (objFileOf a) ∈ (nodeRules g n a).1 := by
  simp only [nodeRules, if_neg hcond]
  exact List.mem_cons_self _ _

theorem nodeRules_du_token (g : DiGraph) (n : String) (a : Option String) (t o : String)
    (h : Rule.du t o ∈ (nodeRules g n a).1) : t = replaceStar n := by
  simp only [nodeRules] at h
  by_cases hcond : (!(strContains (replaceStar n) "ANY") && (objFileOf a == "")) = true
  · rw [if_pos hcond] at h
    simp at h
  · rw [if_neg hcond] at h
    by_cases hobj : (objFileOf a == "") = true
    · rw [if_pos hobj] at h
      simp at h
      exact h.1
    · rw [if_neg hobj] at h
      rcases List.mem_cons.mp h with h1 | h1
      · cases h1
        rfl
      · simp at h1

theorem rulesAcc_sub1 (g : DiGraph) (l : List (String × Option String)) (n : String)
    (a : Option String) (hmem : (n, a) ∈ l) (r : Rule) (hr : r ∈ (nodeRules g n a).1) :
    r ∈ (rulesAcc g l).1 := by
  induction l with
  | nil => simp at hmem
  | cons p rest ih =>
    obtain ⟨m, b⟩ := p
    rcases List.mem_cons.mp hmem with h1 | h1
    · cases h1
      exact List.mem_append.mpr (Or.inl hr)
    · exact List.mem_append.mpr (Or.inr (ih h1))

theorem rulesAcc_sub2 (g : DiGraph) (l : List (String × Option String)) (n : String)
    (a : Option String) (hmem : (n, a) ∈ l) (w : String) (hw : w ∈ (nodeRules g n a).2) :
    w ∈ (rulesAcc g l).2 := by
  induction l with
  | nil => simp at hmem
  | cons p rest ih =>
    obtain ⟨m, b⟩ := p
    rcases List.mem_cons.mp hmem with h1 | h1
    · cases h1
      exact List.mem_append.mpr (Or.inl hw)
    · exact List.mem_append.mpr (Or.inr (ih h1))

theorem rulesAcc_elim1 (g : DiGraph) (l : List (String × Option String)) (r : Rule)
    (h : r ∈ (rulesAcc g l).1) : ∃ p ∈ l, r ∈ (nodeRules g p.1 p.2).1 := by
  induction l with
  | nil => simp [rulesAcc] at h
  | cons p rest ih =>
    obtain ⟨m, b⟩ := p
    rcases List.mem_append.mp h with h1 | h1
    · exact ⟨(m, b), List.mem_cons_self _ _, h1⟩
    · obtain ⟨q, hq, hr⟩ := ih h1
      exact ⟨q, List.mem_cons_of_mem _ hq, hr⟩

theorem filterMap_if_eq_map_filter {α β : Type} (P : α → Bool) (F : α → β) (l : List α) :
    l.filterMap (fun d => if P d then none else some (F d)) =
      (l.filter (fun d => !(P d))).map F := by
  induction l with
  | nil => rfl
  | cons a l ih =>
    by_cases h : P a = true <;> simp [List.filterMap_cons, List.filter_cons, h, ih]

theorem bne_comm_decide (a b : Option String) : (!(a == b)) = decide (b ≠ a) := by
  by_cases h : a = b
  · subst h
    simp
  · have h1 : (a == b) = false := beq_eq_false_iff_ne.mpr h
    rw [h1]
    simp [Ne.symm h]

/-! ## Claim theorems -/

/-- Claim C1, counterexample: wildcard matching is NOT anchored on the
full identifier strings.  In the graph with entity `work.counter`,
architectures `work.counter.rtl` and `work.counter.behav` and the
wildcard use node `*.counter`, `resolve()` DOES add the edge
`*.counter -> work.counter`, because `_is_refering_to` uses an
unanchored `re.search` and the pattern `.+\.counter` matches inside
`work.counter` itself. -/
theorem c1_wildcard_counterexample :
    ("*.counter", "work.counter") ∈ (resolve c1Graph).edges := by decide

/-- Claim C1, amended: after `resolve()` the edges
`*.counter -> work.counter.rtl` and `*.counter -> work.counter.behav`
exist, and additionally the edge `*.counter -> work.counter` exists as
well, since the matching is an unanchored substring search over the
normalized identifiers rather than an anchored match. -/
theorem c1_wildcard_resolution_amended :
    ("*.counter", "work.counter.rtl") ∈ (resolve c1Graph).edges ∧
    ("*.counter", "work.counter.behav") ∈ (resolve c1Graph).edges ∧
    ("*.counter", "work.counter") ∈ (resolve c1Graph).edges := by decide

/-- Claim C2: `resolve()` is idempotent on the edge set.  A second call
appends exactly the same resolution pairs again (the node set is
unchanged by the first call), so no new edge appears: membership in the
edge list is unchanged. -/
theorem c2_resolve_idempotent (g : DiGraph) (e : String × String) :
    e ∈ (resolve (resolve g)).edges ↔ e ∈ (resolve g).edges := by
  have hn : copyKeys (resolve g) = copyKeys g := by
    unfold copyKeys
    rw [resolve_nodes]
  rw [resolve_edges (resolve g), hn, resolve_edges g]
  simp only [List.mem_append]
  tauto

/-- Claim C9: the source stores `nodes`/`edges` as class attributes of
`_DiGraph`, so two separately constructed instances share one container:
adding a node through the first instance changes the node mapping
observed through the second, contradicting the required per-instance
storage.  (Evaluation of the defect at the failing input.) -/
theorem c9_shared_class_storage :
    nodesVia2 (addNodeVia1 freshTwo "work.foo" none) ≠ nodesVia2 freshTwo := by decide

/-- Claim C10: a file whose extraction yields no defines leaves the
graph unchanged: the `for provide in provides` loop body never runs, so
uses create no nodes, no edges and no companion wildcard nodes. -/
theorem c10_use_only_file_noop (g : DiGraph) (f l : String) (s : List SrcItem)
    (h : parseFileDefines s l = []) : parse g f l s = g := by
  simp [parse, h]

/-- Witness for C10 at a concrete use-only file. -/
theorem c10_use_only_file_noop_witness :
    parse (addNode emptyG "work.x" none) "f.vhd" "work"
      [SrcItem.packageUse "ieee" "std_logic_1164"] = addNode emptyG "work.x" none :=
  c10_use_only_file_noop (addNode emptyG "work.x" none) "f.vhd" "work"
    [SrcItem.packageUse "ieee" "std_logic_1164"] (by decide)

/-- Claim C3, counterexample: file insertion is NOT commutative for
every pair of files.  Two files that both define entity `foo` in
library `work` leave `work.foo` carrying the file attribute of
whichever file was parsed last, so the two orders give different node
attributes. -/
theorem c3_commute_counterexample :
    lookupN (parse (parse emptyG "a.vhd" "work" c3Src) "b.vhd" "work" c3Src).nodes
        "work.foo" ≠
      lookupN (parse (parse emptyG "b.vhd" "work" c3Src) "a.vhd" "work" c3Src).nodes
        "work.foo" := by decide

/-- Claim C3, amended: parsing two files in either order yields the
same node attributes for every key and the same edge set, provided the
two files define disjoint sets of (normalized) design units; the
hypothesis that no define ends in the wildcard character is guaranteed
by the extraction regexes, whose captured names consist of word
characters only. -/
theorem c3_commute_amended (g : DiGraph) (fA fB lA lB : String) (sA sB : List SrcItem)
    (hA : ∀ d ∈ defsL sA lA, d.data.getLast? ≠ some '*')
    (hB : ∀ d ∈ defsL sB lB, d.data.getLast? ≠ some '*')
    (hdisj : ∀ d, d ∈ defsL sA lA → d ∉ defsL sB lB) :
    (∀ k, lookupN (parse (parse g fA lA sA) fB lB sB).nodes k =
          lookupN (parse (parse g fB lB sB) fA lA sA).nodes k) ∧
    (∀ e : String × String,
      e ∈ (parse (parse g fA lA sA) fB lB sB).edges ↔
        e ∈ (parse (parse g fB lB sB) fA lA sA).edges) := by
  constructor
  · intro k
    rw [parse_lookup _ fB lB sB k hB, parse_lookup _ fA lA sA k hA,
      parse_lookup _ fA lA sA k hA, parse_lookup _ fB lB sB k hB]
    by_cases hdA : k ∈ defsL sA lA
    · have hdB : k ∉ defsL sB lB := hdisj k hdA
      have hcB : k ∉ compsL sB lB := fun hc => hA k hdA (compsL_getLast sB lB k hc)
      simp only [fileEffect_d hdA]
      rw [fileEffect_some hdB hcB]
    · by_cases hdB : k ∈ defsL sB lB
      · have hcA : k ∉ compsL sA lA := fun hc => hB k hdB (compsL_getLast sA lA k hc)
        simp only [fileEffect_d hdB]
        rw [fileEffect_some hdA hcA]
      · by_cases hcA : k ∈ compsL sA lA
        · simp only [fileEffect_c hdA hcA]
          by_cases hcB : k ∈ compsL sB lB
          · rw [fileEffect_c hdB hcB]
          · rw [fileEffect_some hdB hcB]
        · by_cases hcB : k ∈ compsL sB lB
          · simp only [fileEffect_c hdB hcB]
            rw [fileEffect_some hdA hcA]
          · by_cases huA : parseFileDefines sA lA ≠ [] ∧ k ∈ usesL sA lA
            · simp only [fileEffect_u hdA hcA huA]
              by_cases huB : parseFileDefines sB lB ≠ [] ∧ k ∈ usesL sB lB
              · simp only [fileEffect_u hdB hcB huB, ensureVal_ensureVal]
              · simp only [fileEffect_id hdB hcB huB]
            · simp only [fileEffect_id hdA hcA huA]
  · intro e
    rw [parse_edges, parse_edges, parse_edges, parse_edges]
    simp only [List.mem_append]
    tauto

/-- Claim C4: neither `parse` nor `resolve` ever creates a self-loop:
`parse` skips a use equal to the provide, and `_is_refering_to`
requires a wildcard on exactly one side, so its two identifiers always
differ. -/
theorem c4_no_self_loops (g : DiGraph) (f l : String) (s : List SrcItem)
    (h : ∀ e ∈ g.edges, e.1 ≠ e.2) :
    (∀ e ∈ (parse g f l s).edges, e.1 ≠ e.2) ∧
    (∀ e ∈ (resolve g).edges, e.1 ≠ e.2) := by
  constructor
  · intro e he
    rw [parse_edges] at he
    rcases List.mem_append.mp he with h1 | h1
    · exact h e h1
    · exact parseEdgesList_ne _ _ e h1
  · intro e he
    rw [resolve_edges] at he
    rcases List.mem_append.mp he with h1 | h1
    · exact h e h1
    · exact refPairs_ne _ _ e h1

/-- Witness for C4: a file that defines package `util` and also uses
`work.util` produces no self-loop (and an empty graph trivially
satisfies the no-self-loop hypothesis). -/
theorem c4_no_self_loops_witness :
    (∀ e ∈ (parse emptyG "util.vhd" "work"
      [SrcItem.packageDef "util", SrcItem.packageUse "work" "util"]).edges, e.1 ≠ e.2) ∧
    (∀ e ∈ (resolve emptyG).edges, e.1 ≠ e.2) :=
  c4_no_self_loops emptyG "util.vhd" "work"
    [SrcItem.packageDef "util", SrcItem.packageUse "work" "util"] (by decide)

/-- Witness for C3 (amended) at two concrete single-entity files with
disjoint defines. -/
theorem c3_commute_amended_witness :
    (∀ k, lookupN (parse (parse emptyG "a.vhd" "work" [SrcItem.entityDef "foo"])
        "b.vhd" "work" [SrcItem.entityDef "bar"]).nodes k =
      lookupN (parse (parse emptyG "b.vhd" "work" [SrcItem.entityDef "bar"])
        "a.vhd" "work" [SrcItem.entityDef "foo"]).nodes k) ∧
    (∀ e : String × String,
      e ∈ (parse (parse emptyG "a.vhd" "work" [SrcItem.entityDef "foo"])
        "b.vhd" "work" [SrcItem.entityDef "bar"]).edges ↔
      e ∈ (parse (parse emptyG "b.vhd" "work" [SrcItem.entityDef "bar"])
        "a.vhd" "work" [SrcItem.entityDef "foo"]).edges) :=
  c3_commute_amended emptyG "a.vhd" "b.vhd" "work" "work"
    [SrcItem.entityDef "foo"] [SrcItem.entityDef "bar"]
    (by decide) (by decide) (by decide)

theorem libMatch_ieee_std (x : String) :
    libMatch ["ieee", "std"] x = (strStarts x "ieee." || strStarts x "std.") := by
  simp only [libMatch, List.any_cons, List.any_nil, Bool.or_false]
  rw [show ("ieee" ++ "." : String) = "ieee." from rfl,
    show ("std" ++ "." : String) = "std." from rfl]

/-- Claim C5: pruning with the assumed libraries `ieee` and `std` is
complete on well-formed graphs: the surviving node mapping is exactly
the original one restricted to identifiers not starting with `ieee.` or
`std.` (attributes unchanged), the surviving edge list is exactly the
original one restricted to edges between surviving nodes, and hence no
surviving node or edge endpoint carries either prefix. -/
theorem c5_prune_complete (g : DiGraph) (hwf : wfGraph g) :
    ((removeLibs g ["ieee", "std"]).nodes =
      g.nodes.filter (fun p => !(strStarts p.1 "ieee." || strStarts p.1 "std."))) ∧
    ((removeLibs g ["ieee", "std"]).edges =
      g.edges.filter (fun e => !(strStarts e.1 "ieee." || strStarts e.1 "std.") &&
        !(strStarts e.2 "ieee." || strStarts e.2 "std."))) ∧
    (∀ p ∈ (removeLibs g ["ieee", "std"]).nodes,
      strStarts p.1 "ieee." = false ∧ strStarts p.1 "std." = false) ∧
    (∀ e ∈ (removeLibs g ["ieee", "std"]).edges,
      (strStarts e.1 "ieee." = false ∧ strStarts e.1 "std." = false) ∧
      (strStarts e.2 "ieee." = false ∧ strStarts e.2 "std." = false)) := by
  have hkey : ∀ x : String, (lookupN g.nodes x).isSome = true →
      memStr x (copyKeys g) = true := by
    intro x hx
    exact (memStr_iff _ _).mpr ((lookupN_isSome_iff_mem_keys g.nodes x).mp hx)
  have h1 : (removeLibs g ["ieee", "std"]).nodes =
      g.nodes.filter (fun p => !(strStarts p.1 "ieee." || strStarts p.1 "std.")) := by
    rw [removeLibs_eq]
    apply List.filter_congr
    intro p hp
    have hm : memStr p.1 (copyKeys g) = true :=
      (memStr_iff _ _).mpr (List.mem_map.mpr ⟨p, hp, rfl⟩)
    rw [hm, Bool.true_and, libMatch_ieee_std]
  have h2 : (removeLibs g ["ieee", "std"]).edges =
      g.edges.filter (fun e => !(strStarts e.1 "ieee." || strStarts e.1 "std.") &&
        !(strStarts e.2 "ieee." || strStarts e.2 "std.")) := by
    rw [removeLibs_eq]
    apply List.filter_congr
    intro e he
    obtain ⟨he1, he2⟩ := hwf.2 e he
    rw [hkey e.1 he1, hkey e.2 he2, Bool.true_and, Bool.true_and,
      libMatch_ieee_std, libMatch_ieee_std]
  refine ⟨h1, h2, ?_, ?_⟩
  · intro p hp
    rw [h1] at hp
    have hcond := (List.mem_filter.mp hp).2
    simp only [Bool.not_eq_true', Bool.or_eq_false_iff] at hcond
    exact hcond
  · intro e he
    rw [h2] at he
    have hcond := (List.mem_filter.mp he).2
    simp only [Bool.and_eq_true, Bool.not_eq_true', Bool.or_eq_false_iff] at hcond
    exact hcond

/-- Witness for C5 on a concrete graph holding an `ieee` package node,
a work node and an edge between them. -/
theorem c5_prune_complete_witness :
    ((removeLibs (addEdge (addNode (addNode emptyG "ieee.std_logic_1164" none)
        "work.a" (some "a.vhd")) "work.a" "ieee.std_logic_1164") ["ieee", "std"]).nodes =
      (addEdge (addNode (addNode emptyG "ieee.std_logic_1164" none)
        "work.a" (some "a.vhd")) "work.a" "ieee.std_logic_1164").nodes.filter
        (fun p => !(strStarts p.1 "ieee." || strStarts p.1 "std."))) ∧
    ((removeLibs (addEdge (addNode (addNode emptyG "ieee.std_logic_1164" none)
        "work.a" (some "a.vhd")) "work.a" "ieee.std_logic_1164") ["ieee", "std"]).edges =
      (addEdge (addNode (addNode emptyG "ieee.std_logic_1164" none)
        "work.a" (some "a.vhd")) "work.a" "ieee.std_logic_1164").edges.filter
        (fun e => !(strStarts e.1 "ieee." || strStarts e.1 "std.") &&
          !(strStarts e.2 "ieee." || strStarts e.2 "std."))) ∧
    (∀ p ∈ (removeLibs (addEdge (addNode (addNode emptyG "ieee.std_logic_1164" none)
        "work.a" (some "a.vhd")) "work.a" "ieee.std_logic_1164") ["ieee", "std"]).nodes,
      strStarts p.1 "ieee." = false ∧ strStarts p.1 "std." = false) ∧
    (∀ e ∈ (removeLibs (addEdge (addNode (addNode emptyG "ieee.std_logic_1164" none)
        "work.a" (some "a.vhd")) "work.a" "ieee.std_logic_1164") ["ieee", "std"]).edges,
      (strStarts e.1 "ieee." = false ∧ strStarts e.1 "std." = false) ∧
      (strStarts e.2 "ieee." = false ∧ strStarts e.2 "std." = false)) :=
  c5_prune_complete (addEdge (addNode (addNode emptyG "ieee.std_logic_1164" none)
    "work.a" (some "a.vhd")) "work.a" "ieee.std_logic_1164") ⟨by decide, by decide⟩

/-- Claim C6: for a node `n` with file `f`, the emitted object rule
lists exactly the design-unit rules of the out-edge targets whose file
attribute differs from `f` (same-file dependencies excluded). -/
theorem c6_same_file_exclusion (g : DiGraph) (hwf : wfGraph g) (n f : String)
    (hn : lookupN g.nodes n = some (some f)) :
    ∃ deps, Rule.obj (objFileOf (some f)) deps ∈ (writeMakefileRules g).1 ∧
      deps = (((outEdges g n).map Prod.snd).filter
        (fun d => decide (fileAttrOf g d ≠ some f))).map (fun d => "du/" ++ replaceStar d) := by
  have hmem : (n, some f) ∈ g.nodes := lookupN_mem _ _ _ hn
  have hrule : Rule.obj (objFileOf (some f))
      (((outEdges g n).map Prod.snd).filterMap (fun d =>
        if (some f : Option String) == fileAttrOf g d then none
        else some ("du/" ++ replaceStar d))) ∈ (writeMakefileRules g).1 := by
    apply rulesAcc_sub1 g g.nodes n (some f) hmem
    rw [nodeRules_obj]
    simp
  refine ⟨_, hrule, ?_⟩
  rw [filterMap_if_eq_map_filter]
  congr 1
  apply List.filter_congr
  intro d _
  exact bne_comm_decide (some f) (fileAttrOf g d)

/-- Witness for C6 on the concrete same-file entity/architecture
scenario; there the dependency list excludes the same-file entity. -/
theorem c6_same_file_exclusion_witness :
    ∃ deps, Rule.obj (objFileOf (some "adder.vhd")) deps ∈ (writeMakefileRules c6Graph).1 ∧
      deps = (((outEdges c6Graph "work.adder.rtl").map Prod.snd).filter
        (fun d => decide (fileAttrOf c6Graph d ≠ some "adder.vhd"))).map
        (fun d => "du/" ++ replaceStar d) :=
  c6_same_file_exclusion c6Graph ⟨by decide, by decide⟩ "work.adder.rtl" "adder.vhd"
    (by decide)

/-- Claim C7: a node with no file attribute and no wildcard in its
token produces a warning on the diagnostic stream (the second, separate
component of the output), no design-unit rule of its own, while every
other node that meets the emission condition still gets its design-unit
rule. -/
theorem c7_missing_definition_warning (g : DiGraph) (hwf : wfGraph g) (n : String)
    (hn : lookupN g.nodes n = some none)
    (hany : strContains (replaceStar n) "ANY" = false)
    (huniq : ∀ p ∈ g.nodes, p.1 ≠ n → replaceStar p.1 ≠ replaceStar n) :
    warningMsg (replaceStar n) ∈ (writeMakefileRules g).2 ∧
    (∀ o : String, Rule.du (replaceStar n) o ∉ (writeMakefileRules g).1) ∧
    (∀ p ∈ g.nodes, strContains (replaceStar p.1) "ANY" = true ∨ p.2 ≠ none →
      Rule.du (replaceStar p.1) (objFileOf p.2) ∈ (writeMakefileRules g).1) := by
  have hmem : (n, none) ∈ g.nodes := lookupN_mem _ _ _ hn
  refine ⟨?_, ?_, ?_⟩
  · apply rulesAcc_sub2 g g.nodes n none hmem
    rw [nodeRules_warning g n hany]
    exact List.mem_cons_self _ _
  · intro o hcontra
    obtain ⟨p, hp, hr⟩ := rulesAcc_elim1 g g.nodes _ hcontra
    by_cases hpn : p.1 = n
    · have hlk : lookupN g.nodes p.1 = some p.2 := nodup_mem_lookupN g.nodes p.1 p.2 hwf.1 hp
      rw [hpn, hn] at hlk
      have hp2 : p.2 = none := (Option.some.inj hlk).symm
      rw [hpn, hp2, nodeRules_warning g n hany] at hr
      simp at hr
    · exact huniq p hp hpn (nodeRules_du_token g p.1 p.2 _ _ hr).symm
  · intro p hp hcond
    have hc : ¬ ((!(strContains (replaceStar p.1) "ANY") && (objFileOf p.2 == "")) = true) := by
      rcases hcond with h1 | h1
      · simp [h1]
      · rcases hx : p.2 with _ | q
        · exact absurd hx h1
        · simp [objFileOf_some_beq q]
    exact rulesAcc_sub1 g g.nodes p.1 p.2 hp _ (nodeRules_du_mem g p.1 p.2 hc)

/-- Witness for C7 on a concrete graph with an undefined referenced
unit and one defined unit. -/
theorem c7_missing_definition_warning_witness :
    warningMsg (replaceStar "work.missing") ∈
      (writeMakefileRules (addNode (addNode emptyG "work.missing" none)
        "work.ok" (some "ok.vhd"))).2 ∧
    (∀ o : String, Rule.du (replaceStar "work.missing") o ∉
      (writeMakefileRules (addNode (addNode emptyG "work.missing" none)
        "work.ok" (some "ok.vhd"))).1) ∧
    (∀ p ∈ (addNode (addNode emptyG "work.missing" none) "work.ok" (some "ok.vhd")).nodes,
      strContains (replaceStar p.1) "ANY" = true ∨ p.2 ≠ none →
      Rule.du (replaceStar p.1) (objFileOf p.2) ∈
        (writeMakefileRules (addNode (addNode emptyG "work.missing" none)
          "work.ok" (some "ok.vhd"))).1) :=
  c7_missing_definition_warning
    (addNode (addNode emptyG "work.missing" none) "work.ok" (some "ok.vhd"))
    ⟨by decide, by decide⟩ "work.missing" (by decide) (by decide) (by decide)

theorem dot_append_lower_ne_nil (a : String) : (lowerStr ("." ++ a)).data ≠ [] := by
  simp [lowerStr, String.data_append]

/-- Claim C8: every defined package body yields an edge to its package
specification, and every defined architecture yields an edge to its
entity, in the graph produced by `parse`. -/
theorem c8_second_level_edges (g : DiGraph) (f l : String) (s : List SrcItem) :
    (∀ nm, SrcItem.packageBodyDef nm ∈ s →
      (lowerStr (l ++ "." ++ nm ++ ".body"), lowerStr (l ++ "." ++ nm)) ∈
        (parse g f l s).edges) ∧
    (∀ a e, SrcItem.archDef a e ∈ s →
      (lowerStr (l ++ "." ++ e ++ "." ++ a), lowerStr (l ++ "." ++ e)) ∈
        (parse g f l s).edges) := by
  constructor
  · intro nm hmem
    obtain ⟨hd, hu⟩ := body_mem_extraction s l nm hmem
    rw [parse_edges]
    apply List.mem_append.mpr
    right
    apply mem_parseEdgesList _ _ _ _ hd hu
    rw [show l ++ "." ++ nm ++ ".body" = (l ++ "." ++ nm) ++ ".body" from rfl,
      lowerStr_append]
    exact Ne.symm (ne_self_append _ _ (by decide))
  · intro a e hmem
    obtain ⟨hd, hu⟩ := arch_mem_extraction s l a e hmem
    rw [parse_edges]
    apply List.mem_append.mpr
    right
    apply mem_parseEdgesList _ _ _ _ hd hu
    rw [String.append_assoc (l ++ "." ++ e) "." a, lowerStr_append]
    exact Ne.symm (ne_self_append _ _ (dot_append_lower_ne_nil a))

/-- Witness for C8 on a concrete file with a package body and an
architecture. -/
theorem c8_second_level_edges_witness :
    (lowerStr ("work" ++ "." ++ "pkg" ++ ".body"), lowerStr ("work" ++ "." ++ "pkg")) ∈
      (parse emptyG "u.vhd" "work"
        [SrcItem.packageBodyDef "pkg", SrcItem.archDef "rtl" "cnt"]).edges ∧
    (lowerStr ("work" ++ "." ++ "cnt" ++ "." ++ "rtl"), lowerStr ("work" ++ "." ++ "cnt")) ∈
      (parse emptyG "u.vhd" "work"
        [SrcItem.packageBodyDef "pkg", SrcItem.archDef "rtl" "cnt"]).edges :=
  ⟨(c8_second_level_edges emptyG "u.vhd" "work"
      [SrcItem.packageBodyDef "pkg", SrcItem.archDef "rtl" "cnt"]).1 "pkg" (by decide),
   (c8_second_level_edges emptyG "u.vhd" "work"
      [SrcItem.packageBodyDef "pkg", SrcItem.archDef "rtl" "cnt"]).2 "rtl" "cnt" (by decide)⟩
